import Mathlib

/-!
Shallow embedding of the scheduling dashboard's rescheduling / layout engine
(calendar page: `layoutDayJobs`, the `conflicts`, `downstreamJobs`,
`shiftMinutes`, `shiftedDownstream` computations, `handleCrewSizeChange`,
and the reschedule API route's input handling).

Modelling conventions:
* A JavaScript `Date` is modelled as an integer number of minutes since a
  fixed local epoch (`Int`).  `toDateKey` (the calendar day) becomes floor
  division by 1440 and the minute-of-day becomes `t % 1440`; Lean's `Int`
  division and modulus are euclidean, which for the positive modulus 1440
  coincide with floor division and a nonnegative remainder, exactly the
  calendar decomposition.  Date keys are therefore `Int` day numbers and
  wall-clock times are minutes of the day; both correspond bijectively to
  the `YYYY-MM-DD` / `HH:MM` strings the source produces.
* JavaScript numbers holding hour counts are modelled as `ℚ`;
  `Math.round` is `jsRound q = ⌊q + 1/2⌋` (JS rounds halves up).
* `Array.prototype.sort` with comparator `(a, b) => key a - key b` is a
  stable sort by `key`; we model it with `List.insertionSort`, which is
  also stable for the same total preorder, hence extensionally equal.
-/

namespace Spotless

/-- JS `Math.round`: round to the nearest integer, halves toward `+∞`. -/
def jsRound (q : ℚ) : Int := ⌊q + 1/2⌋

/-- `toDateKey`: the calendar day of a timestamp (minutes since epoch). -/
def toDateKey (t : Int) : Int := t / 1440

/-- Minute of the day of a timestamp: `getHours() * 60 + getMinutes()`. -/
def minuteOfDay (t : Int) : Int := t % 1440

/-- A job as the calendar page sees it.  `start` is the result of
`parseJobDate(job)` in minutes since the epoch; `hours` is the raw
`job.hours` field (absent or numeric). -/
structure Job where
  id : String
  client : String
  start : Int
  hours : Option ℚ
  cleaningTeam : List String
  deriving DecidableEq, Repr

/-- `getDurationHours(job) = job.hours ? Number(job.hours) : 3`;
`0` is falsy in JS, so a zero duration also falls back to 3. -/
def getDurationHours (j : Job) : ℚ :=
  match j.hours with
  | none => 3
  | some h => if h = 0 then 3 else h

/-- `Math.round(getDurationHours(job) * 60)`: the duration in minutes that
both conflict detection and the day layout use. -/
def durationMinutes (j : Job) : Int := jsRound (getDurationHours j * 60)

/-- A detected conflict, as built by the `conflicts` memo: the sibling job
plus a display reason string. -/
structure Conflict where
  job : Job
  reason : String
  deriving DecidableEq, Repr

/-- The body of the `conflicts` memo for one sibling `j`: overlap is
`sameDay && jobStart < nextEnd && jobEnd > nextStart`; on overlap the
reason is a team conflict iff some member of the sibling's team is in the
proposed team. -/
def conflictOf (nextStart : Int) (durationHours : ℚ) (team : List String)
    (j : Job) : Option Conflict :=
  let jobStart := j.start
  let jobEnd := jobStart + durationMinutes j
  let nextEnd := nextStart + jsRound (durationHours * 60)
  if toDateKey jobStart = toDateKey nextStart ∧ jobStart < nextEnd ∧ jobEnd > nextStart then
    let teamOverlap := j.cleaningTeam.any (fun member => team.contains member)
    some { job := j
           reason := if teamOverlap then "Team conflict with " ++ j.client
                     else "Time conflict with " ++ j.client }
  else
    none

/-- The `conflicts` memo: filter out the moved job by id, then map each
sibling to an optional conflict and drop the nulls. -/
def conflicts (movedId : String) (nextStart : Int) (durationHours : ℚ)
    (team : List String) (jobs : List Job) : List Conflict :=
  (jobs.filter (fun j => j.id ≠ movedId)).filterMap
    (conflictOf nextStart durationHours team)

/-- The `downstreamJobs` memo: siblings (moved job excluded by id) on the
moved job's original calendar day whose start is at or after the moved
job's original end, sorted ascending by start time. -/
def downstreamJobs (moved : Job) (jobs : List Job) : List Job :=
  let originalStart := moved.start
  let originalEnd := originalStart + durationMinutes moved
  List.insertionSort (fun a b => a.start ≤ b.start)
    ((jobs.filter (fun j => j.id ≠ moved.id)).filter
      (fun j => toDateKey j.start = toDateKey originalStart ∧ j.start ≥ originalEnd))

/-- `deltaMinutes` inside the `shiftMinutes` memo:
`(newStart + newDuration) - (originalStart + originalDuration)` in minutes
(the `Math.round` on a whole number of milliseconds-per-minute is the
identity here). -/
def deltaMinutes (moved : Job) (newStart : Int) (durationHours : ℚ) : Int :=
  (newStart + jsRound (durationHours * 60)) - (moved.start + durationMinutes moved)

/-- The `shiftMinutes` memo: `Math.max(0, deltaMinutes)`. -/
def shiftMinutes (moved : Job) (newStart : Int) (durationHours : ℚ) : Int :=
  max 0 (deltaMinutes moved newStart durationHours)

/-- One entry of the `shiftedDownstream` memo: the (unchanged) job record,
`newDate = toDateKey(shiftedStart)` and `newTime` as minutes of the day. -/
structure ShiftedJob where
  job : Job
  newDateKey : Int
  newTimeMin : Int
  deriving DecidableEq, Repr

/-- The `shiftedDownstream` memo: empty when the shift toggle is off or the
shift is zero; otherwise every downstream job moved forward by
`shiftMinutes`. -/
def shiftedDownstream (moved : Job) (jobs : List Job) (newStart : Int)
    (durationHours : ℚ) (shiftToggle : Bool) : List ShiftedJob :=
  if shiftToggle = false ∨ shiftMinutes moved newStart durationHours = 0 then []
  else
    (downstreamJobs moved jobs).map (fun j =>
      let shiftedStart := j.start + shiftMinutes moved newStart durationHours
      { job := j
        newDateKey := toDateKey shiftedStart
        newTimeMin := minuteOfDay shiftedStart })

/-- The pieces of component state that `handleCrewSizeChange` reads and
writes. -/
structure CrewState where
  crewSize : Int
  durationHours : ℚ
  laborHours : ℚ
  autoAdjustDuration : Bool
  deriving DecidableEq, Repr

/-- `handleCrewSizeChange(value)`: clamp the crew to at least 1; if
auto-adjust is on and `laborHours` is truthy (nonzero), re-derive the
duration from the stored labor-hours, rounded to the nearest half hour and
floored at 0.5; otherwise keep the duration and recompute labor-hours. -/
def handleCrewSizeChange (value : ℚ) (s : CrewState) : CrewState :=
  let nextCrew := max 1 (jsRound value)
  if s.autoAdjustDuration = true ∧ s.laborHours ≠ 0 then
    { s with
      crewSize := nextCrew
      durationHours := max (1/2) ((jsRound ((s.laborHours / (nextCrew : ℚ)) * 2) : ℚ) / 2) }
  else
    { s with
      crewSize := nextCrew
      laborHours := (nextCrew : ℚ) * s.durationHours }

/-- Modelled from the spec: `roundToNearestHalf` of the Duration Resolver
(`lib/cascade-scheduler` is not part of the provided sources).  Matches the
in-source idiom `Math.round(x * 2) / 2`. -/
def roundToNearestHalf (q : ℚ) : ℚ := (jsRound (q * 2) : ℚ) / 2

/-- Modelled from the spec: `calculateDurationForTeamChange` of
`lib/cascade-scheduler`, which is absent from the provided sources (only
its callers are).  Spec 4.1: crew sizes are clamped to a minimum of 1,
labor-hours `= originalDurationHours × originalCrewSize` is preserved, and
the output is `roundToNearestHalf(laborHours / newCrewSize)` floored at
half an hour. -/
def calculateDurationForTeamChange (originalDurationHours : ℚ)
    (originalCrewSize newCrewSize : Int) : ℚ :=
  let oc := max 1 originalCrewSize
  let nc := max 1 newCrewSize
  let laborHours := originalDurationHours * (oc : ℚ)
  max (1/2) (roundToNearestHalf (laborHours / (nc : ℚ)))

/-- Whitespace for the purposes of JS `String.prototype.trim` (the common
ASCII cases suffice for this model). -/
def isTrimmedChar (c : Char) : Bool :=
  c = ' ' ∨ c = '\t' ∨ c = '\n' ∨ c = '\r'

/-- JS `String.prototype.trim`. -/
def jsTrim (s : String) : String :=
  ⟨((s.data.dropWhile isTrimmedChar).reverse.dropWhile isTrimmedChar).reverse⟩

/-- The JSON body of `POST /api/jobs/[id]/reschedule` as the route reads
it: absent fields are `none`; `hours` is `undefined`/`null` or a number
(every rational is a finite JS number). -/
structure RescheduleBody where
  date : Option String
  startTime : Option String
  hours : Option ℚ
  cleaningTeam : Option (List String)
  deriving DecidableEq, Repr

/-- The columns the route's `UPDATE jobs SET ...` will write. -/
structure RescheduleUpdate where
  date : String
  scheduledAt : Option String
  hours : Option ℚ
  cleaningTeam : Option (List String)
  deriving DecidableEq, Repr

/-- The route's input handling: trim the strings, reject only an empty
`date` (HTTP 400 `"Missing date"`), include `scheduled_at` only when the
column exists and a start time was given, include `hours` whenever it is a
finite number (no sign check), and trim/compact the team list. -/
def buildRescheduleUpdate (hasScheduledAt : Bool) (b : RescheduleBody) :
    Except String RescheduleUpdate :=
  let date := jsTrim (b.date.getD "")
  let startTime := jsTrim (b.startTime.getD "")
  if date = "" then .error "Missing date"
  else
    .ok { date := date
          scheduledAt :=
            if hasScheduledAt = true ∧ startTime ≠ "" then
              some (date ++ "T" ++ startTime ++ ":00")
            else none
          hours := b.hours
          cleaningTeam := b.cleaningTeam.map (fun team =>
            (team.map jsTrim).filter (fun member => member ≠ "")) }

/-! Interval layout engine (`layoutDayJobs`). -/

/-- Calendar constants of the day view. -/
def START_HOUR : Int := 7

/-- Last displayed hour of the day view. -/
def END_HOUR : Int := 19

/-- Pixel height of one hour row. -/
def HOUR_HEIGHT : ℚ := 56

/-- Snap/minimum-slot size in minutes. -/
def MIN_SLOT : Int := 15

/-- `(END_HOUR - START_HOUR + 1) * 60`. -/
def totalMinutes : Int := (END_HOUR - START_HOUR + 1) * 60

/-- `clamp(value, min, max)`. -/
def clamp (value lo hi : Int) : Int := min hi (max lo value)

/-- A normalized event of the layout sweep.  The source calls the second
interval endpoint `end`, which is a reserved word in Lean, so it is named
`stop` here. -/
structure LEvent where
  job : Job
  start : Int
  stop : Int
  deriving DecidableEq, Repr

/-- Normalization of one job inside `layoutDayJobs`:
`startMinutes = (getHours() - START_HOUR) * 60 + getMinutes()`, clamped to
the visible day, with the end clamped likewise and extended to at least
`MIN_SLOT` minutes for display. -/
def toEvent (j : Job) : LEvent :=
  let startMinutes := minuteOfDay j.start - START_HOUR * 60
  let clampedStart := clamp startMinutes 0 totalMinutes
  let clampedEnd := clamp (clampedStart + durationMinutes j) 0 totalMinutes
  { job := j, start := clampedStart, stop := max clampedEnd (clampedStart + MIN_SLOT) }

/-- The events of `layoutDayJobs`, sorted ascending by start (stable, like
the JS comparator sort). -/
def sortedEvents (dayJobs : List Job) : List LEvent :=
  List.insertionSort (fun a b => a.start ≤ b.start) (dayJobs.map toEvent)

/-- The cluster sweep of `layoutDayJobs`: extend the current cluster while
the next event starts before the running maximal end, else close it. -/
def clustersGo : List LEvent → List (List LEvent) → List LEvent → Int →
    List (List LEvent)
  | [], acc, cur, _ => if cur.isEmpty then acc else acc ++ [cur]
  | e :: rest, acc, cur, clusterEnd =>
    if cur.isEmpty ∨ e.start < clusterEnd then
      clustersGo rest acc (cur ++ [e]) (max clusterEnd e.stop)
    else
      clustersGo rest (acc ++ [cur]) [e] e.stop

/-- The overlap clusters of a day's jobs. -/
def layoutClusters (dayJobs : List Job) : List (List LEvent) :=
  clustersGo (sortedEvents dayJobs) [] [] (-1)

/-- First-fit column search: the index of the first column whose tracked
end is at most the event's start (`event.start >= columns[i]`). -/
def firstFit (s : Int) : List Int → Option Nat
  | [] => none
  | c :: rest => if s ≥ c then some 0 else (firstFit s rest).map (· + 1)

/-- The per-cluster greedy column assignment: `columns` tracks each
column's end; each event reuses the first free column or opens a new one.
The returned association list records, in processing order, the column
given to each event (the source stores this in a `Map` keyed by job id). -/
def assignGo : List LEvent → List Int → List (LEvent × Nat) →
    List Int × List (LEvent × Nat)
  | [], columns, acc => (columns, acc)
  | e :: rest, columns, acc =>
    match firstFit e.start columns with
    | some i => assignGo rest (columns.set i e.stop) (acc ++ [(e, i)])
    | none => assignGo rest (columns ++ [e.stop]) (acc ++ [(e, columns.length)])

/-- Column assignment of a whole cluster, starting from no columns. -/
def clusterAssignment (cluster : List LEvent) : List Int × List (LEvent × Nat) :=
  assignGo cluster [] []

/-- `columnCount` of a cluster: the number of columns opened. -/
def clusterColumnCount (cluster : List LEvent) : Nat :=
  (clusterAssignment cluster).1.length

/-- JS `eventColumns.get(event.job.id) ?? 0`: `Map.set` overwrites, so the
lookup returns the column of the LAST processed event with that id (search
the assignment list from the most recent end), defaulting to 0. -/
def lookupColumn (assigned : List (LEvent × Nat)) (id : String) : Nat :=
  ((assigned.reverse.find? (fun p => p.1.job.id = id)).map (fun p => p.2)).getD 0

/-- An intermediate layout slot: the event together with the column data
the second per-cluster pass reads back. -/
structure ClusterSlot where
  event : LEvent
  columnIndex : Nat
  columnCount : Nat
  deriving DecidableEq, Repr

/-- The second per-cluster pass of `layoutDayJobs`: each event of the
cluster, with its column index looked up by job id and the cluster's
column count. -/
def clusterSlots (cluster : List LEvent) : List ClusterSlot :=
  cluster.map (fun e =>
    { event := e
      columnIndex := lookupColumn (clusterAssignment cluster).2 e.job.id
      columnCount := clusterColumnCount cluster })

/-- The output record of `layoutDayJobs` (`PositionedJob` in the source). -/
structure PositionedJob where
  job : Job
  top : ℚ
  height : ℚ
  left : ℚ
  width : ℚ
  deriving DecidableEq, Repr

/-- Geometry of one slot: `top`/`height` from the event interval in hours
times `HOUR_HEIGHT` (at least 48px), `left`/`width` from the column data. -/
def toPositioned (s : ClusterSlot) : PositionedJob :=
  let width : ℚ := 1 / (s.columnCount : ℚ)
  { job := s.event.job
    top := ((s.event.start : ℚ) / 60) * HOUR_HEIGHT
    height := max ((((s.event.stop - s.event.start : Int) : ℚ) / 60) * HOUR_HEIGHT) 48
    left := (s.columnIndex : ℚ) * width
    width := width }

/-- `layoutDayJobs`: normalize, sort, cluster, assign columns, emit the
positioned slots cluster by cluster. -/
def layoutDayJobs (dayJobs : List Job) : List PositionedJob :=
  ((layoutClusters dayJobs).map (fun c => (clusterSlots c).map toPositioned)).flatten

/-- The number of events of `l` active at instant `t`, with the half-open
convention `start ≤ t < stop`. -/
def depth (l : List LEvent) (t : Int) : Nat :=
  (l.filter (fun e => decide (e.start ≤ t ∧ t < e.stop))).length

/-- Active-event count over assignment pairs (same convention). -/
def pairDepth (l : List (LEvent × Nat)) (t : Int) : Nat :=
  (l.filter (fun p => decide (p.1.start ≤ t ∧ t < p.1.stop))).length

/-- A column-assignment entry is consistent with the column ends: its
index is in range and its event ends no later than its column's tracked
end. -/
def colOK (cols : List Int) (p : LEvent × Nat) : Prop :=
  p.2 < cols.length ∧ p.1.stop ≤ cols.getD p.2 0

/-- Two assignment entries placed in processing order are interval-disjoint
whenever they share a column. -/
def colDisjoint (p q : LEvent × Nat) : Prop :=
  p.2 = q.2 → p.1.stop ≤ q.1.start

/-- Every tracked column end is realized by the last event assigned to that
column. -/
def colWitness (cols : List Int) (acc : List (LEvent × Nat)) : Prop :=
  ∀ i < cols.length, ∃ p ∈ acc, p.2 = i ∧ p.1.stop = cols.getD i 0

/-- Comparing jobs by start time is total. -/
instance : IsTotal Job (fun a b => a.start ≤ b.start) :=
  ⟨fun a b => le_total a.start b.start⟩

/-- Comparing jobs by start time is transitive. -/
instance : IsTrans Job (fun a b => a.start ≤ b.start) :=
  ⟨fun _ _ _ hab hbc => le_trans hab hbc⟩

/-- Comparing layout events by start time is total. -/
instance : IsTotal LEvent (fun a b => a.start ≤ b.start) :=
  ⟨fun a b => le_total a.start b.start⟩

/-- Comparing layout events by start time is transitive. -/
instance : IsTrans LEvent (fun a b => a.start ≤ b.start) :=
  ⟨fun _ _ _ hab hbc => le_trans hab hbc⟩

/-- Concrete job for the cascade scenario: starts day 0 at 09:00 with two
hours of work. -/
def scenarioJobA : Job :=
  { id := "a", client := "Alice", start := 540, hours := some 2, cleaningTeam := ["Maria"] }

/-- Concrete downstream job for the cascade scenario: same day, 11:30, one
hour. -/
def scenarioJobC : Job :=
  { id := "c", client := "Cara", start := 690, hours := some 1, cleaningTeam := ["Nadia"] }

/-- Concrete sibling overlapping a 10:00 candidate, for witnesses. -/
def witnessJobB : Job :=
  { id := "b", client := "Ben", start := 630, hours := some 1, cleaningTeam := ["Maria"] }

/-- Concrete job used by the duplicate-id layout counterexample. -/
def dupJob : Job :=
  { id := "a", client := "Alice", start := 540, hours := some 1, cleaningTeam := ["Maria"] }

/-- The layout event of `dupJob`: 09:00 is minute 120 of the visible day. -/
def dupEvent : LEvent := { job := dupJob, start := 120, stop := 180 }

/-- Concrete distinct-id job overlapping `dupJob` (09:30, one hour). -/
def overlapJobB : Job :=
  { id := "b", client := "Bea", start := 570, hours := some 1, cleaningTeam := [] }

/-- The layout event of `overlapJobB`. -/
def overlapEventB : LEvent := { job := overlapJobB, start := 150, stop := 210 }

end Spotless

namespace Spotless

theorem filterMap_if_filter {α β : Type} (p : α → Bool) (q : α → Prop) [DecidablePred q]
    (f : α → β) (l : List α) :
    (l.filter p).filterMap (fun a => if q a then some (f a) else none) =
      (l.filter (fun a => p a && decide (q a))).map f := by
  induction l with
  | nil => rfl
  | cons a t ih =>
    by_cases hp : p a = true <;> by_cases hq : q a <;>
      simp [List.filter_cons, hp, hq, ih]

theorem clustersGo_flatten (l : List LEvent) : ∀ (acc : List (List LEvent))
    (cur : List LEvent) (cEnd : Int),
    (clustersGo l acc cur cEnd).flatten = acc.flatten ++ cur ++ l := by
  induction l with
  | nil =>
    intro acc cur cEnd
    by_cases h : cur.isEmpty = true
    · rw [List.isEmpty_iff] at h
      simp [clustersGo, h]
    · simp only [clustersGo, h, if_false]
      simp
  | cons e rest ih =>
    intro acc cur cEnd
    by_cases h : (cur.isEmpty ∨ e.start < cEnd)
    · simp only [clustersGo, if_pos h, ih]
      simp
    · simp only [clustersGo, if_neg h, ih]
      simp

theorem mem_cluster_mem_sorted {dayJobs : List Job} {c : List LEvent} {e : LEvent}
    (hc : c ∈ layoutClusters dayJobs) (he : e ∈ c) : e ∈ sortedEvents dayJobs := by
  have hflat : e ∈ (layoutClusters dayJobs).flatten := List.mem_flatten.2 ⟨c, hc, he⟩
  rw [layoutClusters, clustersGo_flatten] at hflat
  simpa using hflat

theorem mem_cluster_job_mem {dayJobs : List Job} {c : List LEvent} {e : LEvent}
    (hc : c ∈ layoutClusters dayJobs) (he : e ∈ c) : e.job ∈ dayJobs := by
  have hs := mem_cluster_mem_sorted hc he
  rw [sortedEvents, List.mem_insertionSort] at hs
  obtain ⟨j, hj, rfl⟩ := List.mem_map.1 hs
  simpa [toEvent] using hj

theorem conflictOf_job_eq {nextStart : Int} {durationHours : ℚ} {team : List String}
    {j : Job} {c : Conflict} (h : conflictOf nextStart durationHours team j = some c) :
    c.job = j := by
  by_cases hcond : toDateKey j.start = toDateKey nextStart
      ∧ j.start < nextStart + jsRound (durationHours * 60)
      ∧ j.start + durationMinutes j > nextStart
  · rw [conflictOf, if_pos hcond] at h
    cases h
    rfl
  · rw [conflictOf, if_neg hcond] at h
    cases h

theorem conflictOf_eq (nextStart : Int) (durationHours : ℚ) (team : List String) (j : Job) :
    conflictOf nextStart durationHours team j =
      if toDateKey j.start = toDateKey nextStart
          ∧ nextStart < j.start + durationMinutes j
          ∧ j.start < nextStart + jsRound (durationHours * 60) then
        some { job := j
               reason := if ∃ m ∈ j.cleaningTeam, m ∈ team
                         then "Team conflict with " ++ j.client
                         else "Time conflict with " ++ j.client }
      else none := by
  by_cases hcond : toDateKey j.start = toDateKey nextStart
      ∧ j.start < nextStart + jsRound (durationHours * 60)
      ∧ j.start + durationMinutes j > nextStart
  · rw [conflictOf, if_pos hcond, if_pos ⟨hcond.1, hcond.2.2, hcond.2.1⟩]
    by_cases ht : ∃ m ∈ j.cleaningTeam, m ∈ team
    · have hb : (j.cleaningTeam.any fun member => team.contains member) = true := by
        simpa using ht
      simp only [hb, if_pos ht, if_true]
    · have hb : (j.cleaningTeam.any fun member => team.contains member) = false := by
        simpa using ht
      simp only [hb, if_neg ht, Bool.false_eq_true, if_false]
  · rw [conflictOf, if_neg hcond, if_neg]
    intro hcond2
    exact hcond ⟨hcond2.1, hcond2.2.2, hcond2.2.1⟩

/-- Claim C5: conflict detection excludes the moved job by id, reports
exactly one conflict for each remaining sibling on the candidate's
calendar day whose half-open interval overlaps the candidate's
(`candidateStart < siblingEnd` and `siblingStart < candidateEnd`), and
classifies it as a team conflict exactly when the proposed team intersects
the sibling's team, otherwise as a time conflict. -/
theorem conflicts_characterization (movedId : String) (nextStart : Int)
    (durationHours : ℚ) (team : List String) (jobs : List Job) :
    conflicts movedId nextStart durationHours team jobs =
      (jobs.filter (fun j => decide (j.id ≠ movedId) &&
          decide (toDateKey j.start = toDateKey nextStart
            ∧ nextStart < j.start + durationMinutes j
            ∧ j.start < nextStart + jsRound (durationHours * 60)))).map
        (fun j => { job := j
                    reason := if ∃ m ∈ j.cleaningTeam, m ∈ team
                              then "Team conflict with " ++ j.client
                              else "Time conflict with " ++ j.client }) := by
  rw [conflicts,
    List.filterMap_congr (fun j _ => conflictOf_eq nextStart durationHours team j)]
  exact filterMap_if_filter _ _ _ jobs

/-- Claim C1: for every proposed move, the shift applied downstream is
`max(0, deltaMinutes)`, so a non-positive delta yields an empty downstream
list and every shifted job only ever moves later, never earlier. -/
theorem shift_clamped_nonneg_downstream (moved : Job) (jobs : List Job) (newStart : Int)
    (durationHours : ℚ) (shiftToggle : Bool) :
    shiftMinutes moved newStart durationHours =
      max 0 (deltaMinutes moved newStart durationHours)
    ∧ (deltaMinutes moved newStart durationHours ≤ 0 →
        shiftedDownstream moved jobs newStart durationHours shiftToggle = [])
    ∧ ∀ e ∈ shiftedDownstream moved jobs newStart durationHours shiftToggle,
        e.newDateKey * 1440 + e.newTimeMin =
          e.job.start + max 0 (deltaMinutes moved newStart durationHours)
        ∧ e.job.start ≤ e.newDateKey * 1440 + e.newTimeMin := by
  refine ⟨rfl, ?_, ?_⟩
  · intro hle
    have hz : shiftMinutes moved newStart durationHours = 0 := by
      simp [shiftMinutes, max_eq_left hle]
    simp [shiftedDownstream, hz]
  · intro e he
    rw [shiftedDownstream] at he
    split at he
    · simp at he
    · obtain ⟨j, _, rfl⟩ := List.mem_map.1 he
      have hrecon : toDateKey (j.start + shiftMinutes moved newStart durationHours) * 1440
          + minuteOfDay (j.start + shiftMinutes moved newStart durationHours)
          = j.start + shiftMinutes moved newStart durationHours := by
        rw [toDateKey, minuteOfDay, mul_comm]
        exact Int.ediv_add_emod _ _
      dsimp only
      refine ⟨by simpa [shiftMinutes] using hrecon, ?_⟩
      rw [hrecon]
      have : (0 : Int) ≤ shiftMinutes moved newStart durationHours := le_max_left _ _
      omega

/-- Witness for C1 at a concrete move that ends earlier than the original
(delta is negative), with the scenario jobs in the snapshot. -/
theorem shift_clamped_nonneg_downstream_witness :
    deltaMinutes scenarioJobA 480 1 ≤ 0
    ∧ shiftedDownstream scenarioJobA [scenarioJobA, scenarioJobC] 480 1 true = [] := by
  have h : deltaMinutes scenarioJobA 480 1 ≤ 0 := by
    norm_num [deltaMinutes, durationMinutes, getDurationHours, scenarioJobA, jsRound]
  exact ⟨h, ((shift_clamped_nonneg_downstream scenarioJobA [scenarioJobA, scenarioJobC]
    480 1 true).2.1 h)⟩

/-- Claim C6: intervals are half-open; a same-day sibling that merely
touches the candidate placement at an endpoint produces no conflict. -/
theorem touching_endpoints_no_conflict (nextStart : Int) (durationHours : ℚ)
    (team : List String) (j : Job)
    (h : j.start = nextStart + jsRound (durationHours * 60)
      ∨ j.start + durationMinutes j = nextStart) :
    conflictOf nextStart durationHours team j = none := by
  unfold conflictOf
  rw [if_neg]
  rcases h with h | h
  · intro hcond
    rw [h] at hcond
    exact absurd hcond.2.1 (lt_irrefl _)
  · intro hcond
    rw [h] at hcond
    exact absurd hcond.2.2 (lt_irrefl _)

/-- Witness for C6: a sibling starting exactly at the candidate's end is
not reported (the scenario job starts at 11:30, the candidate runs
09:30-11:30). -/
theorem touching_endpoints_no_conflict_witness :
    scenarioJobC.start = 570 + jsRound ((2 : ℚ) * 60)
    ∧ conflictOf 570 2 ["Maria"] scenarioJobC = none := by
  have h : scenarioJobC.start = 570 + jsRound ((2 : ℚ) * 60) := by
    norm_num [scenarioJobC, jsRound]
  exact ⟨h, touching_endpoints_no_conflict 570 2 ["Maria"] scenarioJobC (Or.inl h)⟩

/-- Counterexample to claim C7 as stated: with auto-adjust enabled but a
zero stored labor-hours value, `handleCrewSizeChange` leaves the duration
unchanged (2h) and recomputes labor-hours, instead of producing the
claimed `max(0.5, roundToNearestHalf(laborHours / newCrew)) = 0.5`. -/
theorem crew_change_labor_zero_cex :
    handleCrewSizeChange 3
        { crewSize := 1, durationHours := 2, laborHours := 0, autoAdjustDuration := true } =
      { crewSize := 3, durationHours := 2, laborHours := 6, autoAdjustDuration := true }
    ∧ max (1/2 : ℚ) (roundToNearestHalf ((0 : ℚ) / ((max 1 (jsRound 3) : Int) : ℚ))) = 1/2
    ∧ (2 : ℚ) ≠ 1/2 := by
  refine ⟨?_, ?_, by norm_num⟩
  · norm_num [handleCrewSizeChange, jsRound]
  · norm_num [roundToNearestHalf, jsRound]

/-- Claim C7 as amended: the effective crew is `max(1, round(v))` (so a
non-positive input is silently clamped to 1); when auto-adjust is on and
the stored labor-hours is nonzero the duration is re-derived from
labor-hours (rounded to the nearest half hour, floored at 0.5h) with
labor-hours untouched; when auto-adjust is off or labor-hours is zero the
duration is kept and labor-hours is recomputed as crew times duration. -/
theorem crew_change_spec (value : ℚ) (s : CrewState) :
    (handleCrewSizeChange value s).crewSize = max 1 (jsRound value)
    ∧ 1 ≤ (handleCrewSizeChange value s).crewSize
    ∧ (handleCrewSizeChange value s).autoAdjustDuration = s.autoAdjustDuration
    ∧ (s.autoAdjustDuration = true → s.laborHours ≠ 0 →
        (handleCrewSizeChange value s).durationHours =
          max (1/2) (roundToNearestHalf (s.laborHours / ((max 1 (jsRound value) : Int) : ℚ)))
        ∧ (handleCrewSizeChange value s).laborHours = s.laborHours)
    ∧ ((s.autoAdjustDuration = false ∨ s.laborHours = 0) →
        (handleCrewSizeChange value s).durationHours = s.durationHours
        ∧ (handleCrewSizeChange value s).laborHours =
            ((max 1 (jsRound value) : Int) : ℚ) * s.durationHours) := by
  by_cases hcond : s.autoAdjustDuration = true ∧ s.laborHours ≠ 0
  · rw [handleCrewSizeChange]
    rw [if_pos hcond]
    refine ⟨rfl, le_max_left _ _, rfl, fun _ _ => ⟨?_, rfl⟩, fun hoff => ?_⟩
    · rw [roundToNearestHalf]
    · rcases hoff with hoff | hoff
      · exact absurd hcond.1 (by simp [hoff])
      · exact absurd hoff hcond.2
  · rw [handleCrewSizeChange]
    rw [if_neg hcond]
    refine ⟨rfl, le_max_left _ _, rfl, fun hauto hlab => ?_, fun _ => ⟨rfl, rfl⟩⟩
    exact absurd ⟨hauto, hlab⟩ hcond

/-- Witness for C7 (amended) at crew input 3 with 4 labor-hours stored:
the duration becomes `roundToNearestHalf(4/3) = 1.5`. -/
theorem crew_change_spec_witness :
    (handleCrewSizeChange 3
        { crewSize := 1, durationHours := 2, laborHours := 4, autoAdjustDuration := true }).crewSize = 3
    ∧ (handleCrewSizeChange 3
        { crewSize := 1, durationHours := 2, laborHours := 4, autoAdjustDuration := true }).durationHours
        = 3/2 := by
  have h := crew_change_spec 3
    { crewSize := 1, durationHours := 2, laborHours := 4, autoAdjustDuration := true }
  have h4 := h.2.2.2.1 rfl (by norm_num)
  refine ⟨?_, ?_⟩
  · rw [h.1]
    norm_num [jsRound]
  · rw [h4.1]
    norm_num [roundToNearestHalf, jsRound]

/-- Claim C10: a missing or zero `hours` field is treated as exactly 3
hours by the shared duration helper that both conflict detection and the
day layout use, and neither computation modifies job records: every
output's `job` field is one of the input records. -/
theorem fallback_duration_three_hours (j : Job) (h : j.hours = none ∨ j.hours = some 0) :
    getDurationHours j = 3 ∧ durationMinutes j = 180
    ∧ (∀ (movedId : String) (nextStart : Int) (durationHours : ℚ)
        (team : List String) (jobs : List Job),
        ∀ c ∈ conflicts movedId nextStart durationHours team jobs, c.job ∈ jobs)
    ∧ (∀ dayJobs : List Job, ∀ p ∈ layoutDayJobs dayJobs, p.job ∈ dayJobs) := by
  have h3 : getDurationHours j = 3 := by
    rcases h with h | h <;> simp [getDurationHours, h]
  refine ⟨h3, ?_, ?_, ?_⟩
  · rw [durationMinutes, h3]
    norm_num [jsRound]
  · intro movedId ns dh team jobs c hc
    rw [conflicts] at hc
    obtain ⟨j2, hj2, hsome⟩ := List.mem_filterMap.1 hc
    rw [conflictOf_job_eq hsome]
    exact (List.mem_filter.1 hj2).1
  · intro dayJobs p hp
    rw [layoutDayJobs] at hp
    obtain ⟨lp, hlp, hplp⟩ := List.mem_flatten.1 hp
    obtain ⟨c, hc, rfl⟩ := List.mem_map.1 hlp
    obtain ⟨slot, hslot, rfl⟩ := List.mem_map.1 hplp
    obtain ⟨e, he, rfl⟩ := List.mem_map.1 hslot
    exact mem_cluster_job_mem hc he

/-- Witness for C10 at a job with no `hours` field. -/
theorem fallback_duration_three_hours_witness :
    getDurationHours
      { id := "n", client := "Noa", start := 600, hours := none, cleaningTeam := [] } = 3
    ∧ durationMinutes
      { id := "n", client := "Noa", start := 600, hours := none, cleaningTeam := [] } = 180 :=
  ⟨(fallback_duration_three_hours _ (Or.inl rfl)).1,
   (fallback_duration_three_hours _ (Or.inl rfl)).2.1⟩

/-- Counterexample to claim C9 as stated: the reschedule route accepts a
candidate placement whose `hours` is -2 (a non-positive duration) — the
update is built, with the negative hours written through unchanged, rather
than the placement being rejected. -/
theorem reschedule_accepts_nonpositive_hours_cex :
    buildRescheduleUpdate true
        { date := some "2025-12-05", startTime := some "10:00",
          hours := some (-2), cleaningTeam := none } =
      .ok { date := "2025-12-05", scheduledAt := some "2025-12-05T10:00:00",
            hours := some (-2), cleaningTeam := none }
    ∧ (-2 : ℚ) ≤ 0 := by
  constructor
  · rfl
  · norm_num

/-- Claim C9 as amended: the route rejects a placement exactly when its
(trimmed) date is missing or empty, before building any update; a
non-positive `durationHours` is not rejected — whatever finite `hours`
value the body carries is passed through unvalidated. -/
theorem reschedule_rejects_only_missing_date (hasScheduledAt : Bool) (b : RescheduleBody) :
    ((∃ msg, buildRescheduleUpdate hasScheduledAt b = .error msg)
      ↔ jsTrim (b.date.getD "") = "")
    ∧ (∀ u, buildRescheduleUpdate hasScheduledAt b = .ok u →
        u.hours = b.hours ∧ u.date = jsTrim (b.date.getD "")) := by
  by_cases hdate : jsTrim (b.date.getD "") = ""
  · rw [buildRescheduleUpdate]
    rw [if_pos hdate]
    exact ⟨⟨fun _ => hdate, fun _ => ⟨_, rfl⟩⟩, fun u hu => by cases hu⟩
  · rw [buildRescheduleUpdate]
    rw [if_neg hdate]
    refine ⟨⟨fun hex => ?_, fun hd => absurd hd hdate⟩, fun u hu => ?_⟩
    · obtain ⟨msg, hmsg⟩ := hex
      cases hmsg
    · cases hu
      exact ⟨rfl, rfl⟩

theorem roundToNearestHalf_le (q : ℚ) : roundToNearestHalf q ≤ q + 1/4 := by
  rw [roundToNearestHalf, jsRound]
  have h := Int.floor_le (q * 2 + 1/2)
  linarith

theorem lt_roundToNearestHalf (q : ℚ) : q - 1/4 < roundToNearestHalf q := by
  rw [roundToNearestHalf, jsRound]
  have h := Int.sub_one_lt_floor (q * 2 + 1/2)
  linarith

/-- Counterexample to claim C8 as stated: resolving a 10h job from crew 1
to crew 8 rounds 1.25h up to 1.5h, and resolving back to crew 1 returns
12h — two full hours away from the original, far outside 0.5h. -/
theorem duration_roundtrip_cex :
    calculateDurationForTeamChange 10 1 8 = 3/2
    ∧ calculateDurationForTeamChange (calculateDurationForTeamChange 10 1 8) 8 1 = 12
    ∧ ¬ |calculateDurationForTeamChange (calculateDurationForTeamChange 10 1 8) 8 1
          - 10| ≤ (1/2 : ℚ) := by
  have h1 : calculateDurationForTeamChange 10 1 8 = 3/2 := by
    norm_num [calculateDurationForTeamChange, roundToNearestHalf, jsRound]
  have h2 : calculateDurationForTeamChange (3/2) 8 1 = 12 := by
    norm_num [calculateDurationForTeamChange, roundToNearestHalf, jsRound]
  refine ⟨h1, by rw [h1, h2], ?_⟩
  rw [h1, h2]
  rw [abs_le]
  norm_num

/-- Claim C8 as amended: the Duration Resolver round trip N to M and back
to N (crew sizes at least 1) returns within 0.5h of the original duration
whenever the intermediate crew M is no larger than the original crew N;
for M > N the rounding error of the first resolution is amplified by M/N
on the way back and can exceed 0.5h. -/
theorem duration_roundtrip_bounded (d : ℚ) (hd : 0 ≤ d) (N M : Int)
    (hM : 1 ≤ M) (hMN : M ≤ N) :
    |calculateDurationForTeamChange (calculateDurationForTeamChange d N M) M N - d|
      ≤ 1/2 := by
  have hN : 1 ≤ N := hM.trans hMN
  have hm0 : (0:ℚ) < (M:ℚ) := by exact_mod_cast lt_of_lt_of_le zero_lt_one hM
  have hn0 : (0:ℚ) < (N:ℚ) := by exact_mod_cast lt_of_lt_of_le zero_lt_one hN
  have hmn : (M:ℚ) ≤ (N:ℚ) := by exact_mod_cast hMN
  have hxm : ((max 1 M : Int) : ℚ) = (M:ℚ) := by rw [max_eq_right hM]
  have hxn : ((max 1 N : Int) : ℚ) = (N:ℚ) := by rw [max_eq_right hN]
  have hfrac0 : (0:ℚ) < (M:ℚ) / (N:ℚ) := div_pos hm0 hn0
  have hfrac1 : (M:ℚ) / (N:ℚ) ≤ 1 := (div_le_one hn0).2 hmn
  simp only [calculateDurationForTeamChange, hxm, hxn]
  set x := d * (N:ℚ) / (M:ℚ) with hxdef
  have hxnonneg : 0 ≤ x := div_nonneg (mul_nonneg hd hn0.le) hm0.le
  set d1 := max (1/2 : ℚ) (roundToNearestHalf x) with hd1def
  by_cases hcase : (1/2 : ℚ) ≤ roundToNearestHalf x
  · have hd1 : d1 = roundToNearestHalf x := max_eq_right hcase
    have hub : d1 ≤ x + 1/4 := by rw [hd1]; exact roundToNearestHalf_le x
    have hlb : x - 1/4 < d1 := by rw [hd1]; exact lt_roundToNearestHalf x
    have hyd : d1 * (M:ℚ) / (N:ℚ) - d = (d1 - x) * ((M:ℚ) / (N:ℚ)) := by
      rw [hxdef]
      field_simp
      ring
    have h1 : (d1 - x) * ((M:ℚ) / (N:ℚ)) ≤ 1/4 := by
      nlinarith [mul_nonneg (by linarith : (0:ℚ) ≤ 1/4 - (d1 - x)) hfrac0.le]
    have h2 : -(1/4) ≤ (d1 - x) * ((M:ℚ) / (N:ℚ)) := by
      nlinarith [mul_nonneg (by linarith : (0:ℚ) ≤ (d1 - x) + 1/4) hfrac0.le]
    have hry_ub : roundToNearestHalf (d1 * (M:ℚ) / (N:ℚ)) ≤ d + 1/2 :=
      (roundToNearestHalf_le _).trans (by linarith)
    have hry_lb : d - 1/2 < roundToNearestHalf (d1 * (M:ℚ) / (N:ℚ)) :=
      lt_of_le_of_lt (by linarith) (lt_roundToNearestHalf _)
    rw [abs_le]
    constructor
    · have := le_max_right (1/2 : ℚ) (roundToNearestHalf (d1 * (M:ℚ) / (N:ℚ)))
      linarith
    · have hmm2 : max (1/2 : ℚ) (roundToNearestHalf (d1 * (M:ℚ) / (N:ℚ)))
          ≤ max (1/2 : ℚ) (d + 1/2) := max_le_max le_rfl hry_ub
      have hmm3 : max (1/2 : ℚ) (d + 1/2) = d + 1/2 := max_eq_right (by linarith)
      linarith
  · push_neg at hcase
    have hd1 : d1 = 1/2 := max_eq_left hcase.le
    have hxlt : x < 3/4 := by
      have := lt_roundToNearestHalf x
      linarith
    have hdx : d ≤ x := by
      have hdval : d = x * ((M:ℚ) / (N:ℚ)) := by
        rw [hxdef]
        field_simp
      nlinarith [mul_nonneg hxnonneg (by linarith : (0:ℚ) ≤ 1 - (M:ℚ) / (N:ℚ))]
    have hyval : d1 * (M:ℚ) / (N:ℚ) ≤ 1/2 := by
      rw [hd1, div_le_iff₀ hn0]
      linarith
    have hfloor : roundToNearestHalf (d1 * (M:ℚ) / (N:ℚ)) ≤ 1/2 := by
      rw [roundToNearestHalf, jsRound]
      have harg : (d1 * (M:ℚ) / (N:ℚ)) * 2 + 1/2 ≤ 3/2 := by linarith
      have hfl : ⌊(d1 * (M:ℚ) / (N:ℚ)) * 2 + 1/2⌋ ≤ ⌊(3:ℚ)/2⌋ := Int.floor_le_floor harg
      have hfl32 : ⌊(3:ℚ)/2⌋ = 1 := by norm_num
      have hcast : (⌊(d1 * (M:ℚ) / (N:ℚ)) * 2 + 1/2⌋ : ℚ) ≤ 1 := by
        exact_mod_cast hfl32 ▸ hfl
      linarith
    have hfinal : max (1/2:ℚ) (roundToNearestHalf (d1 * (M:ℚ) / (N:ℚ))) = 1/2 :=
      max_eq_left hfloor
    rw [hfinal, abs_le]
    constructor <;> linarith

/-- Witness for C8 (amended): a 10h job resolved from crew 8 to crew 1 and
back lands exactly on 10h. -/
theorem duration_roundtrip_bounded_witness :
    (0:ℚ) ≤ 10 ∧ (1:Int) ≤ 1 ∧ (1:Int) ≤ 8
    ∧ |calculateDurationForTeamChange (calculateDurationForTeamChange 10 8 1) 1 8 - 10|
        ≤ (1/2 : ℚ) :=
  ⟨by norm_num, le_refl 1, by norm_num,
   duration_roundtrip_bounded 10 (by norm_num) 8 1 (by norm_num) (by norm_num)⟩

/-- Counterexample to claim C2 as stated: in the quoted scenario (job A,
09:00-11:00, moved to 11:00-13:00) the delta defined by
`(newStart+newDuration) - (originalStart+originalDuration)` is +120
minutes, not +180, and the same-day 11:30 downstream job is shifted to
13:30 (minute 810 of the day), not 14:30 (minute 870). -/
theorem cascade_scenario_cex :
    deltaMinutes scenarioJobA 660 2 = 120
    ∧ ¬ deltaMinutes scenarioJobA 660 2 = 180
    ∧ shiftedDownstream scenarioJobA [scenarioJobA, scenarioJobC] 660 2 true =
        [{ job := scenarioJobC, newDateKey := 0, newTimeMin := 810 }]
    ∧ shiftedDownstream scenarioJobA [scenarioJobA, scenarioJobC] 660 2 true ≠
        [{ job := scenarioJobC, newDateKey := 0, newTimeMin := 870 }] := by
  have hdm : durationMinutes scenarioJobA = 120 := by
    norm_num [durationMinutes, getDurationHours, scenarioJobA, jsRound]
  have hdmC : durationMinutes scenarioJobC = 60 := by
    norm_num [durationMinutes, getDurationHours, scenarioJobC, jsRound]
  have hdelta : deltaMinutes scenarioJobA 660 2 = 120 := by
    rw [deltaMinutes, hdm]
    norm_num [scenarioJobA, jsRound]
  have hsm : shiftMinutes scenarioJobA 660 2 = 120 := by
    rw [shiftMinutes, hdelta]
    norm_num
  have hds : downstreamJobs scenarioJobA [scenarioJobA, scenarioJobC] = [scenarioJobC] := by
    rw [downstreamJobs, hdm]
    norm_num [scenarioJobA, scenarioJobC, toDateKey, List.insertionSort, List.orderedInsert]
  have hshift : shiftedDownstream scenarioJobA [scenarioJobA, scenarioJobC] 660 2 true =
      [{ job := scenarioJobC, newDateKey := 0, newTimeMin := 810 }] := by
    rw [shiftedDownstream, if_neg]
    · simp only [hsm, hds, List.map_cons, List.map_nil]
      norm_num [scenarioJobC, toDateKey, minuteOfDay]
    · rw [hsm]
      norm_num
  refine ⟨hdelta, by rw [hdelta]; norm_num, hshift, ?_⟩
  rw [hshift]
  intro habs
  have := List.head_eq_of_cons_eq habs
  simp only [ShiftedJob.mk.injEq] at this
  omega

/-- Claim C2 as amended: for a proposed move with positive delta, the
downstream candidates are exactly the siblings (moved job excluded by id)
on the moved job's original calendar day starting at or after its original
end, in ascending start order, and each is shifted forward by exactly
`deltaMinutes` with its job record unchanged.  In the quoted scenario the
delta is +120 minutes and the 11:30 job moves to 13:30. -/
theorem downstream_shift_characterization (moved : Job) (jobs : List Job)
    (newStart : Int) (durationHours : ℚ)
    (h : 0 < deltaMinutes moved newStart durationHours) :
    (downstreamJobs moved jobs).Perm
        (jobs.filter (fun j => decide (j.id ≠ moved.id
          ∧ toDateKey j.start = toDateKey moved.start
          ∧ moved.start + durationMinutes moved ≤ j.start)))
    ∧ (downstreamJobs moved jobs).Pairwise (fun a b => a.start ≤ b.start)
    ∧ shiftedDownstream moved jobs newStart durationHours true =
        (downstreamJobs moved jobs).map (fun j =>
          { job := j
            newDateKey := toDateKey (j.start + deltaMinutes moved newStart durationHours)
            newTimeMin := minuteOfDay (j.start + deltaMinutes moved newStart durationHours) }) := by
  have hmax : shiftMinutes moved newStart durationHours
      = deltaMinutes moved newStart durationHours := max_eq_right h.le
  refine ⟨?_, ?_, ?_⟩
  · rw [downstreamJobs]
    refine (List.perm_insertionSort _ _).trans ?_
    rw [List.filter_filter]
    have heq : ∀ j ∈ jobs,
        (decide (toDateKey j.start = toDateKey moved.start
            ∧ j.start ≥ moved.start + durationMinutes moved)
          && decide (j.id ≠ moved.id))
        = decide (j.id ≠ moved.id ∧ toDateKey j.start = toDateKey moved.start
            ∧ moved.start + durationMinutes moved ≤ j.start) := by
      intro j _
      by_cases h1 : j.id = moved.id <;>
        by_cases h2 : toDateKey j.start = toDateKey moved.start <;>
          by_cases h3 : moved.start + durationMinutes moved ≤ j.start <;>
            simp [h1, h2, h3, ge_iff_le]
    rw [List.filter_congr heq]
  · exact List.sorted_insertionSort _ _
  · rw [shiftedDownstream, if_neg]
    · simp only [hmax]
    · intro hcond
      rcases hcond with hcond | hcond
      · exact absurd hcond (by simp)
      · rw [hmax] at hcond
        omega

/-- Witness for C2 (amended) at the corrected scenario. -/
theorem downstream_shift_characterization_witness :
    0 < deltaMinutes scenarioJobA 660 2
    ∧ (downstreamJobs scenarioJobA [scenarioJobA, scenarioJobC]).Pairwise
        (fun a b => a.start ≤ b.start) := by
  have hpos : 0 < deltaMinutes scenarioJobA 660 2 := by
    norm_num [deltaMinutes, durationMinutes, getDurationHours, scenarioJobA, jsRound]
  exact ⟨hpos,
    (downstream_shift_characterization scenarioJobA [scenarioJobA, scenarioJobC]
      660 2 hpos).2.1⟩

theorem firstFit_some {s : Int} : ∀ {cols : List Int} {i : Nat},
    firstFit s cols = some i → i < cols.length ∧ cols.getD i 0 ≤ s := by
  intro cols
  induction cols with
  | nil => intro i h; cases h
  | cons c rest ih =>
    intro i h
    rw [firstFit] at h
    by_cases hc : s ≥ c
    · rw [if_pos hc] at h
      cases h
      exact ⟨Nat.succ_pos _, hc⟩
    · rw [if_neg hc] at h
      cases hff : firstFit s rest with
      | none => rw [hff] at h; cases h
      | some i0 =>
        rw [hff] at h
        cases h
        obtain ⟨h1, h2⟩ := ih hff
        exact ⟨by simpa using Nat.succ_lt_succ h1, by simpa using h2⟩

theorem firstFit_none {s : Int} : ∀ {cols : List Int},
    firstFit s cols = none → ∀ j < cols.length, s < cols.getD j 0 := by
  intro cols
  induction cols with
  | nil => intro _ j hj; cases hj
  | cons c rest ih =>
    intro h j hj
    rw [firstFit] at h
    by_cases hc : s ≥ c
    · rw [if_pos hc] at h; cases h
    · rw [if_neg hc] at h
      cases j with
      | zero => simpa using lt_of_not_ge hc
      | succ j0 =>
        have hnone : firstFit s rest = none := by
          cases hff : firstFit s rest with
          | none => rfl
          | some i0 => rw [hff] at h; cases h
        simpa using ih hnone j0 (by simpa using Nat.lt_of_succ_lt_succ hj)

theorem getD_set_self (l : List Int) (i : Nat) (v : Int) (h : i < l.length) :
    (l.set i v).getD i 0 = v := by
  simp [List.getD, List.getElem?_set, h]

theorem getD_set_ne (l : List Int) (i j : Nat) (v : Int) (h : i ≠ j) :
    (l.set i v).getD j 0 = l.getD j 0 := by
  simp [List.getD, List.getElem?_set, h]

theorem pairwise_either {α : Type} {R : α → α → Prop} :
    ∀ {l : List α}, l.Pairwise R → ∀ {a b : α}, a ∈ l → b ∈ l → a ≠ b → R a b ∨ R b a := by
  intro l
  induction l with
  | nil => intro _ a b ha; cases ha
  | cons x t ih =>
    intro hp a b ha hb hne
    rw [List.pairwise_cons] at hp
    rcases List.mem_cons.1 ha with rfl | ha2
    · rcases List.mem_cons.1 hb with rfl | hb2
      · exact absurd rfl hne
      · exact Or.inl (hp.1 b hb2)
    · rcases List.mem_cons.1 hb with rfl | hb2
      · exact Or.inr (hp.1 a ha2)
      · exact ih hp.2 ha2 hb2 hne

theorem pairwise_filter_strengthen {α : Type} {R S : α → α → Prop} (p : α → Bool)
    : ∀ (l : List α), l.Pairwise R →
    (∀ a b, p a = true → p b = true → R a b → S a b) →
    (l.filter p).Pairwise S := by
  intro l
  induction l with
  | nil => intro _ _; simp
  | cons x t ih =>
    intro hp himp
    rw [List.pairwise_cons] at hp
    by_cases hx : p x = true
    · rw [List.filter_cons_of_pos hx]
      rw [List.pairwise_cons]
      refine ⟨?_, ih hp.2 himp⟩
      intro b hb
      have hbmem := List.mem_filter.1 hb
      exact himp x b hx hbmem.2 (hp.1 b hbmem.1)
    · rw [List.filter_cons_of_neg (by simpa using hx)]
      exact ih hp.2 himp

theorem length_le_of_nodup_lt (xs : List Nat) (n : Nat) (hnd : xs.Nodup)
    (hlt : ∀ x ∈ xs, x < n) : xs.length ≤ n := by
  have hsub : xs.toFinset ⊆ Finset.range n := by
    intro x hx
    exact Finset.mem_range.2 (hlt x (List.mem_toFinset.1 hx))
  have hcard := Finset.card_le_card hsub
  rw [List.toFinset_card_of_nodup hnd, Finset.card_range] at hcard
  exact hcard

theorem le_length_of_range_mem (xs : List Nat) (n : Nat)
    (h : ∀ j < n, j ∈ xs) : n ≤ xs.length := by
  have hsub : Finset.range n ⊆ xs.toFinset := by
    intro j hj
    exact List.mem_toFinset.2 (h j (Finset.mem_range.1 hj))
  have hcard := Finset.card_le_card hsub
  rw [Finset.card_range] at hcard
  exact hcard.trans (List.toFinset_card_le xs)

theorem pairDepth_append (l1 l2 : List (LEvent × Nat)) (t : Int) :
    pairDepth (l1 ++ l2) t = pairDepth l1 t + pairDepth l2 t := by
  rw [pairDepth, pairDepth, pairDepth, List.filter_append, List.length_append]

theorem pairDepth_eq_depth : ∀ (acc : List (LEvent × Nat)) (t : Int),
    pairDepth acc t = depth (acc.map Prod.fst) t := by
  intro acc t
  induction acc with
  | nil => rfl
  | cons p rest ih =>
    by_cases hp : p.1.start ≤ t ∧ t < p.1.stop
    · rw [pairDepth, depth] at ih ⊢
      rw [List.map_cons, List.filter_cons_of_pos (by simpa using hp),
        List.filter_cons_of_pos (by simpa using hp), List.length_cons,
        List.length_cons, ih]
    · rw [pairDepth, depth] at ih ⊢
      rw [List.map_cons, List.filter_cons_of_neg (by simpa using hp),
        List.filter_cons_of_neg (by simpa using hp), ih]

theorem toEvent_start_lt_stop (j : Job) : (toEvent j).start < (toEvent j).stop := by
  have h : (toEvent j).stop = max (clamp (clamp (minuteOfDay j.start - START_HOUR * 60)
      0 totalMinutes + durationMinutes j) 0 totalMinutes) ((toEvent j).start + MIN_SLOT) := rfl
  rw [h]
  have h2 := le_max_right (clamp (clamp (minuteOfDay j.start - START_HOUR * 60)
      0 totalMinutes + durationMinutes j) 0 totalMinutes) ((toEvent j).start + MIN_SLOT)
  have h3 : (0:Int) < MIN_SLOT := by norm_num [MIN_SLOT]
  omega

theorem sortedEvents_pairwise (dayJobs : List Job) :
    (sortedEvents dayJobs).Pairwise (fun a b : LEvent => a.start ≤ b.start) := by
  rw [sortedEvents]
  exact List.sorted_insertionSort _ _

theorem cluster_pairwise {dayJobs : List Job} {c : List LEvent}
    (hc : c ∈ layoutClusters dayJobs) :
    c.Pairwise (fun a b : LEvent => a.start ≤ b.start) := by
  have hsub : c.Sublist (layoutClusters dayJobs).flatten :=
    List.sublist_flatten_of_mem hc
  rw [layoutClusters, clustersGo_flatten] at hsub
  simp only [List.flatten_nil, List.nil_append] at hsub
  exact List.Pairwise.sublist hsub (sortedEvents_pairwise dayJobs)

theorem cluster_pos {dayJobs : List Job} {c : List LEvent}
    (hc : c ∈ layoutClusters dayJobs) : ∀ e ∈ c, e.start < e.stop := by
  intro e he
  have hs := mem_cluster_mem_sorted hc he
  rw [sortedEvents, List.mem_insertionSort] at hs
  obtain ⟨j, _, rfl⟩ := List.mem_map.1 hs
  exact toEvent_start_lt_stop j

theorem assignGo_spec : ∀ (l : List LEvent) (cols : List Int) (acc : List (LEvent × Nat)),
    l.Pairwise (fun a b : LEvent => a.start ≤ b.start) →
    (∀ e ∈ l, e.start < e.stop) →
    (∀ p ∈ acc, ∀ e ∈ l, (Prod.fst p).start ≤ e.start) →
    (∀ p ∈ acc, (Prod.fst p).start < (Prod.fst p).stop) →
    (∀ p ∈ acc, colOK cols p) →
    acc.Pairwise colDisjoint →
    colWitness cols acc →
    (∃ t, cols.length ≤ pairDepth acc t) →
    ((assignGo l cols acc).2.map Prod.fst = acc.map Prod.fst ++ l)
    ∧ (∀ p ∈ (assignGo l cols acc).2, colOK (assignGo l cols acc).1 p)
    ∧ (assignGo l cols acc).2.Pairwise colDisjoint
    ∧ (∃ t, (assignGo l cols acc).1.length ≤ pairDepth (assignGo l cols acc).2 t) := by
  intro l
  induction l with
  | nil =>
    intro cols acc _ _ _ _ hok hdisj _ hex
    rw [assignGo]
    exact ⟨by simp, hok, hdisj, hex⟩
  | cons e rest ih =>
    intro cols acc hsort hpos hord hposacc hok hdisj hwit hex
    rw [List.pairwise_cons] at hsort
    have hestop : e.start < e.stop := hpos e (List.mem_cons_self _ _)
    have hposrest : ∀ f ∈ rest, f.start < f.stop :=
      fun f hf => hpos f (List.mem_cons_of_mem _ hf)
    cases hff : firstFit e.start cols with
    | some i =>
      obtain ⟨hilt, hile⟩ := firstFit_some hff
      have hord2 : ∀ p ∈ acc ++ [(e, i)], ∀ f ∈ rest, (Prod.fst p).start ≤ f.start := by
        intro p hp f hf
        rcases List.mem_append.1 hp with hp | hp
        · exact hord p hp f (List.mem_cons_of_mem _ hf)
        · rw [List.mem_singleton.1 hp]
          exact hsort.1 f hf
      have hposacc2 : ∀ p ∈ acc ++ [(e, i)], (Prod.fst p).start < (Prod.fst p).stop := by
        intro p hp
        rcases List.mem_append.1 hp with hp | hp
        · exact hposacc p hp
        · rw [List.mem_singleton.1 hp]
          exact hestop
      have hok2 : ∀ p ∈ acc ++ [(e, i)], colOK (cols.set i e.stop) p := by
        intro p hp
        rcases List.mem_append.1 hp with hp | hp
        · obtain ⟨h1, h2⟩ := hok p hp
          by_cases hpi : p.2 = i
          · refine ⟨by rw [List.length_set]; exact h1, ?_⟩
            rw [hpi, getD_set_self cols i e.stop hilt]
            rw [hpi] at h2
            exact h2.trans (hile.trans hestop.le)
          · refine ⟨by rw [List.length_set]; exact h1, ?_⟩
            rw [getD_set_ne cols i p.2 e.stop (fun h => hpi h.symm)]
            exact h2
        · rw [List.mem_singleton.1 hp]
          exact ⟨by rw [List.length_set]; exact hilt, by
            rw [getD_set_self cols i e.stop hilt]⟩
      have hdisj2 : (acc ++ [(e, i)]).Pairwise colDisjoint := by
        rw [List.pairwise_append]
        refine ⟨hdisj, List.pairwise_singleton _ _, ?_⟩
        intro p hp b hb
        rw [List.mem_singleton.1 hb]
        intro hpe
        have h2 := (hok p hp).2
        rw [hpe] at h2
        exact h2.trans hile
      have hwit2 : colWitness (cols.set i e.stop) (acc ++ [(e, i)]) := by
        intro j hj
        rw [List.length_set] at hj
        by_cases hji : j = i
        · refine ⟨(e, i), List.mem_append_right _ (List.mem_singleton_self _), by rw [hji], ?_⟩
          rw [hji, getD_set_self cols i e.stop hilt]
        · obtain ⟨p, hp, hpj, hpstop⟩ := hwit j hj
          refine ⟨p, List.mem_append_left _ hp, hpj, ?_⟩
          rw [getD_set_ne cols i j e.stop (fun h => hji h.symm)]
          exact hpstop
      have hex2 : ∃ t, (cols.set i e.stop).length ≤ pairDepth (acc ++ [(e, i)]) t := by
        obtain ⟨t, ht⟩ := hex
        refine ⟨t, ?_⟩
        rw [List.length_set, pairDepth_append]
        omega
      obtain ⟨ih1, ih2, ih3, ih4⟩ := ih (cols.set i e.stop) (acc ++ [(e, i)])
        hsort.2 hposrest hord2 hposacc2 hok2 hdisj2 hwit2 hex2
      simp only [assignGo, hff]
      refine ⟨?_, ih2, ih3, ih4⟩
      rw [ih1]
      simp
    | none =>
      have hnone := firstFit_none hff
      have hord2 : ∀ p ∈ acc ++ [(e, cols.length)], ∀ f ∈ rest,
          (Prod.fst p).start ≤ f.start := by
        intro p hp f hf
        rcases List.mem_append.1 hp with hp | hp
        · exact hord p hp f (List.mem_cons_of_mem _ hf)
        · rw [List.mem_singleton.1 hp]
          exact hsort.1 f hf
      have hposacc2 : ∀ p ∈ acc ++ [(e, cols.length)],
          (Prod.fst p).start < (Prod.fst p).stop := by
        intro p hp
        rcases List.mem_append.1 hp with hp | hp
        · exact hposacc p hp
        · rw [List.mem_singleton.1 hp]
          exact hestop
      have hok2 : ∀ p ∈ acc ++ [(e, cols.length)], colOK (cols ++ [e.stop]) p := by
        intro p hp
        rcases List.mem_append.1 hp with hp | hp
        · obtain ⟨h1, h2⟩ := hok p hp
          refine ⟨by rw [List.length_append]; omega, ?_⟩
          rw [List.getD_append cols [e.stop] 0 p.2 h1]
          exact h2
        · rw [List.mem_singleton.1 hp]
          refine ⟨by rw [List.length_append]; simp, ?_⟩
          rw [List.getD_append_right cols [e.stop] 0 cols.length le_rfl]
          simp
      have hdisj2 : (acc ++ [(e, cols.length)]).Pairwise colDisjoint := by
        rw [List.pairwise_append]
        refine ⟨hdisj, List.pairwise_singleton _ _, ?_⟩
        intro p hp b hb
        rw [List.mem_singleton.1 hb]
        intro hpe
        exact absurd hpe (Nat.ne_of_lt (hok p hp).1)
      have hwit2 : colWitness (cols ++ [e.stop]) (acc ++ [(e, cols.length)]) := by
        intro j hj
        rw [List.length_append, List.length_singleton] at hj
        by_cases hji : j = cols.length
        · refine ⟨(e, cols.length), List.mem_append_right _ (List.mem_singleton_self _),
            by rw [hji], ?_⟩
          rw [hji, List.getD_append_right cols [e.stop] 0 cols.length le_rfl]
          simp
        · have hjlt : j < cols.length := by omega
          obtain ⟨p, hp, hpj, hpstop⟩ := hwit j hjlt
          refine ⟨p, List.mem_append_left _ hp, hpj, ?_⟩
          rw [List.getD_append cols [e.stop] 0 j hjlt]
          exact hpstop
      have hex2 : ∃ t, (cols ++ [e.stop]).length
          ≤ pairDepth (acc ++ [(e, cols.length)]) t := by
        refine ⟨e.start, ?_⟩
        rw [List.length_append, List.length_singleton]
        have hlen : pairDepth (acc ++ [(e, cols.length)]) e.start =
            (((acc ++ [(e, cols.length)]).filter
              (fun p => decide ((Prod.fst p).start ≤ e.start
                ∧ e.start < (Prod.fst p).stop))).map Prod.snd).length := by
          rw [pairDepth, List.length_map]
        rw [hlen]
        apply le_length_of_range_mem
        intro j hj
        have hj2 : j < cols.length + 1 := hj
        by_cases hji : j = cols.length
        · apply List.mem_map.2
          refine ⟨(e, cols.length), ?_, by rw [hji]⟩
          apply List.mem_filter.2
          refine ⟨List.mem_append_right _ (List.mem_singleton_self _), ?_⟩
          simp only [decide_eq_true_eq]
          exact ⟨le_refl _, hestop⟩
        · have hjlt : j < cols.length := by omega
          obtain ⟨p, hp, hpj, hpstop⟩ := hwit j hjlt
          apply List.mem_map.2
          refine ⟨p, ?_, hpj⟩
          apply List.mem_filter.2
          refine ⟨List.mem_append_left _ hp, ?_⟩
          simp only [decide_eq_true_eq]
          refine ⟨hord p hp e (List.mem_cons_self _ _), ?_⟩
          rw [hpstop]
          exact hnone j hjlt
      obtain ⟨ih1, ih2, ih3, ih4⟩ := ih (cols ++ [e.stop]) (acc ++ [(e, cols.length)])
        hsort.2 hposrest hord2 hposacc2 hok2 hdisj2 hwit2 hex2
      simp only [assignGo, hff]
      refine ⟨?_, ih2, ih3, ih4⟩
      rw [ih1]
      simp

theorem pairDepth_le_of_disjoint (acc : List (LEvent × Nat)) (cols : List Int)
    (hok : ∀ p ∈ acc, colOK cols p) (hdisj : acc.Pairwise colDisjoint) (t : Int) :
    pairDepth acc t ≤ cols.length := by
  have hne : (acc.filter (fun p => decide ((Prod.fst p).start ≤ t
      ∧ t < (Prod.fst p).stop))).Pairwise (fun p q : LEvent × Nat => p.2 ≠ q.2) := by
    apply pairwise_filter_strengthen _ acc hdisj
    intro a b ha hb hrab heq
    simp only [decide_eq_true_eq] at ha hb
    have := hrab heq
    omega
  have hnodup : ((acc.filter (fun p => decide ((Prod.fst p).start ≤ t
      ∧ t < (Prod.fst p).stop))).map Prod.snd).Nodup :=
    List.Pairwise.map Prod.snd (fun _ _ h => h) hne
  have hlt : ∀ x ∈ (acc.filter (fun p => decide ((Prod.fst p).start ≤ t
      ∧ t < (Prod.fst p).stop))).map Prod.snd, x < cols.length := by
    intro x hx
    obtain ⟨p, hp, rfl⟩ := List.mem_map.1 hx
    exact (hok p (List.mem_filter.1 hp).1).1
  have hlen : pairDepth acc t = ((acc.filter (fun p => decide ((Prod.fst p).start ≤ t
      ∧ t < (Prod.fst p).stop))).map Prod.snd).length := by
    rw [pairDepth, List.length_map]
  rw [hlen]
  exact length_le_of_nodup_lt _ _ hnodup hlt

theorem clusterAssignment_spec (c : List LEvent)
    (hsort : c.Pairwise (fun a b : LEvent => a.start ≤ b.start))
    (hpos : ∀ e ∈ c, e.start < e.stop) :
    ((clusterAssignment c).2.map Prod.fst = c)
    ∧ (∀ p ∈ (clusterAssignment c).2, colOK (clusterAssignment c).1 p)
    ∧ (clusterAssignment c).2.Pairwise colDisjoint
    ∧ (∀ t, depth c t ≤ clusterColumnCount c)
    ∧ (∃ t, depth c t = clusterColumnCount c) := by
  obtain ⟨h1, h2, h3, h4⟩ := assignGo_spec c [] [] hsort hpos
    (fun p hp => absurd hp (List.not_mem_nil p))
    (fun p hp => absurd hp (List.not_mem_nil p))
    (fun p hp => absurd hp (List.not_mem_nil p))
    List.Pairwise.nil
    (fun i hi => absurd hi (Nat.not_lt_zero i))
    ⟨0, by rw [pairDepth]; simp⟩
  have hmap : (clusterAssignment c).2.map Prod.fst = c := by
    rw [clusterAssignment]
    simpa using h1
  have hdepth : ∀ t, depth c t = pairDepth (clusterAssignment c).2 t := by
    intro t
    conv_lhs => rw [← hmap]
    rw [pairDepth_eq_depth]
  have hle : ∀ t, depth c t ≤ clusterColumnCount c := by
    intro t
    rw [hdepth t, clusterColumnCount]
    exact pairDepth_le_of_disjoint _ _ h2 h3 t
  refine ⟨hmap, h2, h3, hle, ?_⟩
  obtain ⟨t, ht⟩ := h4
  refine ⟨t, le_antisymm (hle t) ?_⟩
  rw [hdepth t, clusterColumnCount]
  exact ht

/-- Claim C3: for every input day-job list and every overlap cluster the
layout engine forms, the cluster's `columnCount` (the number of columns the
greedy first-fit assignment opens) equals the maximum number of
simultaneously active jobs at any single instant within the cluster, and
that count is the `columnCount` stamped on each of the cluster's slots. -/
theorem columnCount_eq_max_overlap (dayJobs : List Job) (c : List LEvent)
    (hc : c ∈ layoutClusters dayJobs) :
    (∀ t : Int, depth c t ≤ clusterColumnCount c)
    ∧ (∃ t : Int, depth c t = clusterColumnCount c)
    ∧ (∀ s ∈ clusterSlots c, s.columnCount = clusterColumnCount c) := by
  obtain ⟨_, _, _, h4, h5⟩ :=
    clusterAssignment_spec c (cluster_pairwise hc) (cluster_pos hc)
  refine ⟨h4, h5, ?_⟩
  intro s hs
  obtain ⟨e, _, rfl⟩ := List.mem_map.1 hs
  rfl

/-- Witness for C3 on the one-job day: a single cluster with one column,
whose peak simultaneous load 1 is attained at minute 120. -/
theorem columnCount_eq_max_overlap_witness :
    [dupEvent] ∈ layoutClusters [dupJob]
    ∧ clusterColumnCount [dupEvent] = 1
    ∧ depth [dupEvent] 120 = 1
    ∧ (∀ t : Int, depth [dupEvent] t ≤ clusterColumnCount [dupEvent])
    ∧ (∃ t : Int, depth [dupEvent] t = clusterColumnCount [dupEvent]) := by
  have hmem : [dupEvent] ∈ layoutClusters [dupJob] := by
    have hcl : layoutClusters [dupJob] = [[dupEvent]] := by
      norm_num [layoutClusters, sortedEvents, List.insertionSort, clustersGo,
        toEvent, minuteOfDay, clamp, totalMinutes, START_HOUR, END_HOUR, MIN_SLOT,
        durationMinutes, getDurationHours, dupJob, dupEvent, jsRound]
    rw [hcl]
    exact List.mem_singleton_self _
  have h := columnCount_eq_max_overlap [dupJob] [dupEvent] hmem
  refine ⟨hmem, ?_, ?_, h.1, h.2.1⟩
  · rw [clusterColumnCount, clusterAssignment]
    rfl
  · rw [depth]
    norm_num [dupEvent]

theorem cluster_sublist {dayJobs : List Job} {c : List LEvent}
    (hc : c ∈ layoutClusters dayJobs) : c.Sublist (sortedEvents dayJobs) := by
  have hsub := List.sublist_flatten_of_mem hc
  rw [layoutClusters, clustersGo_flatten] at hsub
  simpa using hsub

theorem cluster_ids_nodup {dayJobs : List Job} (hids : (dayJobs.map Job.id).Nodup)
    {c : List LEvent} (hc : c ∈ layoutClusters dayJobs) :
    (c.map (fun e => e.job.id)).Nodup := by
  have hperm : (sortedEvents dayJobs).Perm (dayJobs.map toEvent) :=
    List.perm_insertionSort _ _
  have hmapids : (dayJobs.map toEvent).map (fun e => e.job.id) = dayJobs.map Job.id := by
    rw [List.map_map]
    exact List.map_congr_left (fun j _ => rfl)
  have hp2 : ((sortedEvents dayJobs).map (fun e => e.job.id)).Perm (dayJobs.map Job.id) := by
    have := hperm.map (fun e => e.job.id)
    rw [hmapids] at this
    exact this
  have hnodup_sorted : ((sortedEvents dayJobs).map (fun e => e.job.id)).Nodup :=
    hp2.symm.nodup hids
  exact List.Nodup.sublist (List.Sublist.map _ (cluster_sublist hc)) hnodup_sorted

theorem find_by_id_unique : ∀ (l : List (LEvent × Nat)),
    (l.map (fun pr => (Prod.fst pr).job.id)).Nodup →
    ∀ (e : LEvent) (k : Nat), (e, k) ∈ l →
    l.find? (fun pr => (Prod.fst pr).job.id = e.job.id) = some (e, k) := by
  intro l
  induction l with
  | nil => intro _ e k h; cases h
  | cons a t ih =>
    intro hnd e k hmem
    rw [List.map_cons, List.nodup_cons] at hnd
    by_cases ha : (Prod.fst a).job.id = e.job.id
    · rcases List.mem_cons.1 hmem with heq | hmem2
      · rw [List.find?_cons_of_pos _ (by simpa using ha), ← heq]
      · exfalso
        apply hnd.1
        rw [ha]
        exact List.mem_map.2 ⟨(e, k), hmem2, rfl⟩
    · rcases List.mem_cons.1 hmem with heq | hmem2
      · exact absurd (by rw [← heq]) ha
      · rw [List.find?_cons_of_neg _ (by simpa using ha)]
        exact ih hnd.2 e k hmem2

theorem lookupColumn_eq (assigned : List (LEvent × Nat))
    (hnd : (assigned.map (fun pr => (Prod.fst pr).job.id)).Nodup)
    (e : LEvent) (k : Nat) (hmem : (e, k) ∈ assigned) :
    lookupColumn assigned e.job.id = k := by
  have hndrev : (assigned.reverse.map (fun pr => (Prod.fst pr).job.id)).Nodup := by
    rw [List.map_reverse]
    exact List.nodup_reverse.2 hnd
  have hmemrev : (e, k) ∈ assigned.reverse := List.mem_reverse.2 hmem
  rw [lookupColumn, find_by_id_unique assigned.reverse hndrev e k hmemrev]
  rfl

/-- Counterexample to claim C4 as stated: with two jobs sharing the id
"a", the id-keyed column map is overwritten, and both overlapping slots of
the single cluster come back with `columnIndex` 1 — two overlapping slots
in one cluster share a column. -/
theorem column_sharing_cex :
    layoutClusters [dupJob, dupJob] = [[dupEvent, dupEvent]]
    ∧ clusterSlots [dupEvent, dupEvent] =
        [{ event := dupEvent, columnIndex := 1, columnCount := 2 },
         { event := dupEvent, columnIndex := 1, columnCount := 2 }]
    ∧ dupEvent.start < dupEvent.stop := by
  refine ⟨?_, ?_, by norm_num [dupEvent]⟩
  · norm_num [layoutClusters, sortedEvents, List.insertionSort, List.orderedInsert,
      clustersGo, toEvent, minuteOfDay, clamp, totalMinutes, START_HOUR, END_HOUR,
      MIN_SLOT, durationMinutes, getDurationHours, dupJob, dupEvent, jsRound]
  · norm_num [clusterSlots, clusterAssignment, clusterColumnCount, assignGo, firstFit,
      lookupColumn, List.find?, dupJob, dupEvent]

/-- Claim C4 as amended: provided the day's job ids are pairwise distinct,
no two slots of one cluster whose event intervals overlap are assigned the
same column index — within a column the intervals are pairwise disjoint,
because a column is only reused when its tracked end is at most the next
job's start. -/
theorem no_column_sharing_of_nodup_ids (dayJobs : List Job)
    (hids : (dayJobs.map Job.id).Nodup)
    (c : List LEvent) (hc : c ∈ layoutClusters dayJobs)
    (p q : ClusterSlot) (hp : p ∈ clusterSlots c) (hq : q ∈ clusterSlots c)
    (hne : p.event.job.id ≠ q.event.job.id)
    (hov : p.event.start < q.event.stop ∧ q.event.start < p.event.stop) :
    p.columnIndex ≠ q.columnIndex := by
  obtain ⟨hmap, hok, hdisj, _, _⟩ :=
    clusterAssignment_spec c (cluster_pairwise hc) (cluster_pos hc)
  have handnodup : ((clusterAssignment c).2.map
      (fun pr => (Prod.fst pr).job.id)).Nodup := by
    have hcomp : (clusterAssignment c).2.map (fun pr => (Prod.fst pr).job.id)
        = ((clusterAssignment c).2.map Prod.fst).map (fun e => e.job.id) := by
      rw [List.map_map]
      exact List.map_congr_left (fun pr _ => rfl)
    rw [hcomp, hmap]
    exact cluster_ids_nodup hids hc
  rw [clusterSlots] at hp hq
  obtain ⟨ep, hep, rfl⟩ := List.mem_map.1 hp
  obtain ⟨eq2, heq2, rfl⟩ := List.mem_map.1 hq
  have hne2 : ep.job.id ≠ eq2.job.id := hne
  have hov2 : ep.start < eq2.stop ∧ eq2.start < ep.stop := hov
  have hepm : ep ∈ (clusterAssignment c).2.map Prod.fst := by
    rw [hmap]
    exact hep
  have heq2m : eq2 ∈ (clusterAssignment c).2.map Prod.fst := by
    rw [hmap]
    exact heq2
  obtain ⟨prp, hprp, hprpe⟩ := List.mem_map.1 hepm
  obtain ⟨prq, hprq, hprqe⟩ := List.mem_map.1 heq2m
  have hmemp : (ep, prp.2) ∈ (clusterAssignment c).2 := by
    rw [← hprpe, Prod.mk.eta]
    exact hprp
  have hmemq : (eq2, prq.2) ∈ (clusterAssignment c).2 := by
    rw [← hprqe, Prod.mk.eta]
    exact hprq
  have hlookp : lookupColumn (clusterAssignment c).2 ep.job.id = prp.2 :=
    lookupColumn_eq _ handnodup ep prp.2 hmemp
  have hlookq : lookupColumn (clusterAssignment c).2 eq2.job.id = prq.2 :=
    lookupColumn_eq _ handnodup eq2 prq.2 hmemq
  show lookupColumn (clusterAssignment c).2 ep.job.id
    ≠ lookupColumn (clusterAssignment c).2 eq2.job.id
  rw [hlookp, hlookq]
  intro habs
  have hpairne : (ep, prp.2) ≠ (eq2, prq.2) := by
    intro hco
    exact hne2 (congrArg (fun pr => (Prod.fst pr).job.id) hco)
  rcases pairwise_either hdisj hmemp hmemq hpairne with hd | hd
  · have := hd habs
    simp only at this
    omega
  · have := hd habs.symm
    simp only at this
    omega

/-- Witness for C4 (amended) on a two-job day with distinct ids: the
overlapping 09:00 and 09:30 jobs land in columns 0 and 1. -/
theorem no_column_sharing_of_nodup_ids_witness :
    ([dupJob, overlapJobB].map Job.id).Nodup
    ∧ [dupEvent, overlapEventB] ∈ layoutClusters [dupJob, overlapJobB]
    ∧ ({ event := dupEvent, columnIndex := 0, columnCount := 2 } : ClusterSlot)
        ∈ clusterSlots [dupEvent, overlapEventB]
    ∧ ({ event := overlapEventB, columnIndex := 1, columnCount := 2 } : ClusterSlot)
        ∈ clusterSlots [dupEvent, overlapEventB]
    ∧ ({ event := dupEvent, columnIndex := 0, columnCount := 2 } : ClusterSlot).columnIndex
        ≠ ({ event := overlapEventB, columnIndex := 1, columnCount := 2 } : ClusterSlot).columnIndex := by
  have hids : ([dupJob, overlapJobB].map Job.id).Nodup := by
    rw [List.map_cons, List.map_cons, List.map_nil]
    decide
  have hcl : layoutClusters [dupJob, overlapJobB] = [[dupEvent, overlapEventB]] := by
    norm_num [layoutClusters, sortedEvents, List.insertionSort, List.orderedInsert,
      clustersGo, toEvent, minuteOfDay, clamp, totalMinutes, START_HOUR, END_HOUR,
      MIN_SLOT, durationMinutes, getDurationHours, dupJob, dupEvent, overlapJobB,
      overlapEventB, jsRound]
  have hmem : [dupEvent, overlapEventB] ∈ layoutClusters [dupJob, overlapJobB] := by
    rw [hcl]
    exact List.mem_singleton_self _
  have hslots : clusterSlots [dupEvent, overlapEventB] =
      [{ event := dupEvent, columnIndex := 0, columnCount := 2 },
       { event := overlapEventB, columnIndex := 1, columnCount := 2 }] := by
    norm_num [clusterSlots, clusterAssignment, clusterColumnCount, assignGo, firstFit,
      lookupColumn, List.find?, dupJob, dupEvent, overlapJobB, overlapEventB]
    decide
  have hp : ({ event := dupEvent, columnIndex := 0, columnCount := 2 } : ClusterSlot)
      ∈ clusterSlots [dupEvent, overlapEventB] := by
    rw [hslots]
    exact List.mem_cons_self _ _
  have hq : ({ event := overlapEventB, columnIndex := 1, columnCount := 2 } : ClusterSlot)
      ∈ clusterSlots [dupEvent, overlapEventB] := by
    rw [hslots]
    exact List.mem_cons_of_mem _ (List.mem_singleton_self _)
  refine ⟨hids, hmem, hp, hq, ?_⟩
  exact no_column_sharing_of_nodup_ids [dupJob, overlapJobB] hids
    [dupEvent, overlapEventB] hmem _ _ hp hq
    (by decide)
    (by norm_num [dupEvent, overlapEventB])

/-- Witness for C9 (amended) at a body with a blank date. -/
theorem reschedule_rejects_only_missing_date_witness :
    ((∃ msg, buildRescheduleUpdate true
        { date := some "  ", startTime := none, hours := none, cleaningTeam := none }
          = .error msg)
      ↔ jsTrim ((some "  " : Option String).getD "") = "")
    ∧ jsTrim ((some "  " : Option String).getD "") = "" :=
  ⟨(reschedule_rejects_only_missing_date true
      { date := some "  ", startTime := none, hours := none, cleaningTeam := none }).1,
   by decide⟩

end Spotless
